import Mathlib

/-!
Verification development for the CSV ingestion and aggregation pipeline of the
AI-readiness dashboard (`src/components/AIReadinessInteractive.jsx`).

Modelling conventions (shallow embedding of the JavaScript source):
* text is modelled as `List Char` (`Str`); all string operations are
  implemented structurally so that concrete inputs evaluate in the kernel;
* JavaScript numbers are modelled as exact rationals (`ℚ`); the source only
  adds, compares and divides parsed decimal literals, so no float-rounding
  behaviour is load-bearing for the properties proved here;
* JavaScript objects built by `row[h] = v` are modelled as association lists
  in insertion order (`Row`), with assignment replacing the value of an
  existing key in place.  (JavaScript enumerates integer-like keys first;
  none of the headers exercised here are integer-like.)
* `new Date(v).getTime()` is modelled by an abstract, explicitly passed
  parser `dp : Str → Option ℤ` (milliseconds; `none` = invalid date), since
  no property proved here depends on how date strings parse;
* `Array.prototype.sort` (stable, comparator-consistent) is modelled by
  `List.insertionSort` on the relation `comparator a b ≤ 0`; the properties
  used (sortedness and permutation) are exactly the observable guarantees.
-/

namespace AIDash

abbrev Str := List Char

/-- JavaScript whitespace characters relevant to `String.prototype.trim`
(ASCII subset). -/
def jsWs (c : Char) : Bool :=
  c = ' ' || c = '\t' || c = '\n' || c = '\r' || c = '\x0b' || c = '\x0c'

/-- Model of `String.prototype.trim`. -/
def trimL (s : Str) : Str :=
  ((s.dropWhile jsWs).reverse.dropWhile jsWs).reverse

/-- Model of `String.prototype.toLowerCase` (ASCII). -/
def lowerL (s : Str) : Str := s.map Char.toLower

/-- Model of `String.prototype.includes`: `isSubL needle hay`. -/
def isSubL (needle : Str) : Str → Bool
  | [] => needle.isEmpty
  | c :: rest => needle.isPrefixOf (c :: rest) || isSubL needle rest

/-- Model of `String.prototype.endsWith`. -/
def endsWithL (s suffix : Str) : Bool :=
  suffix.reverse.isPrefixOf s.reverse

/-- Model of `Array.prototype.join`. -/
def joinSep (sep : Str) : List Str → Str
  | [] => []
  | [x] => x
  | x :: xs => x ++ sep ++ joinSep sep xs

/-- Word character in the sense of the regex class `\w` = `[A-Za-z0-9_]`. -/
def isWordChar (c : Char) : Bool := c.isAlphanum || c = '_'

/-- `\b` holds before the match: previous character (if any) is a non-word
character.  All alternation words used in the source start and end with word
characters, so this is the full boundary condition. -/
def boundaryOk : Option Char → Bool
  | none => true
  | some c => !isWordChar c

/-- `\b` holds after the match: following character (if any) is non-word. -/
def afterOk : Str → Bool
  | [] => true
  | c :: _ => !isWordChar c

/-- Model of `/\b(w₁|w₂|…)\b/.test(t)`: some alternative `w` occurs in `t`
with word boundaries on both sides.  `prev` is the character preceding the
current position. -/
def hasWordAux (ws : List Str) (prev : Option Char) : Str → Bool
  | [] => boundaryOk prev && ws.any (fun w => decide (w = []))
  | c :: rest =>
    (boundaryOk prev &&
      ws.any (fun w =>
        w.isPrefixOf (c :: rest) && afterOk (List.drop w.length (c :: rest)))) ||
    hasWordAux ws (some c) rest

def hasWord (t : Str) (ws : List Str) : Bool := hasWordAux ws none t

/-! ## CSV parser (`parseCSV` / `splitLine` in the source) -/

/-- The character loop of `splitLine`: split a line at commas outside
double quotes; `""` anywhere adds a literal quote; a single `"` toggles the
in-quote state; every pushed field is trimmed. -/
def splitLineRec : Str → Str → Bool → List Str
  | [], cur, _ => [trimL cur]
  | '"' :: '"' :: rest, cur, inQ => splitLineRec rest (cur ++ ['"']) inQ
  | '"' :: rest, cur, inQ => splitLineRec rest cur (!inQ)
  | ',' :: rest, cur, inQ =>
    if inQ then splitLineRec rest (cur ++ [',']) inQ
    else trimL cur :: splitLineRec rest [] inQ
  | c :: rest, cur, inQ => splitLineRec rest (cur ++ [c]) inQ

/-- Model of `v.replace(/^"|"$/g, '')`: remove one leading and one trailing
double quote (the trailing match is looked for in what remains after the
leading match, as the regex scans left to right without overlap). -/
def stripWrap (s : Str) : Str :=
  let s1 := match s with
    | '"' :: rest => rest
    | _ => s
  match s1.getLast? with
  | some c => if c = '"' then s1.dropLast else s1
  | none => s1

/-- `splitLine` of the source: split, then strip boundary quotes. -/
def splitLine (line : Str) : List Str :=
  (splitLineRec line [] false).map stripWrap

/-- Model of `csvText.split(/\r\n|\n/)`. -/
def splitLinesRec : Str → Str → List Str
  | [], cur => [cur]
  | '\r' :: '\n' :: rest, cur => cur :: splitLinesRec rest []
  | '\n' :: rest, cur => cur :: splitLinesRec rest []
  | c :: rest, cur => splitLinesRec rest (cur ++ [c])

/-! ## JavaScript object model for rows -/

/-- A data row: header → value mapping in insertion order. -/
abbrev Row := List (Str × Str)

def objGet (r : Row) (k : Str) : Option Str :=
  (r.find? (fun p => p.1 == k)).map (·.2)

/-- `row[k] = v`: replace in place if the key exists, else append. -/
def objSet : Row → Str → Str → Row
  | [], k, v => [(k, v)]
  | p :: rest, k, v =>
    if p.1 == k then (p.1, v) :: rest else p :: objSet rest k v

/-- `Object.values(row)` (insertion order). -/
def objValues (r : Row) : List Str := r.map (·.2)

/-- `headers.forEach((h, index) => { row[h] = values[index] || "" })`. -/
def buildRow (headers : List Str) (values : List Str) : Row :=
  headers.enum.foldl (fun row p => objSet row p.2 (values.getD p.1 [])) []

structure ParseResult where
  data : List Row
  fields : List Str
deriving DecidableEq, Repr

/-- Data-row loop of `parseCSV`: skip blank lines, build a row per line.
(`splitLine` always returns at least one field, so the source's
`if (values.length)` test always passes.) -/
def parseRows (headers : List Str) : List Str → List Row
  | [] => []
  | line :: rest =>
    let l := trimL line
    if l = [] then parseRows headers rest
    else buildRow headers (splitLine l) :: parseRows headers rest

/-- Header-search loop of `parseCSV`: the first non-blank line is the
header line; the remaining non-blank lines are data rows. -/
def parseLines : List Str → ParseResult
  | [] => ⟨[], []⟩
  | line :: rest =>
    let l := trimL line
    if l = [] then parseLines rest
    else ⟨parseRows (splitLine l) rest, splitLine l⟩

/-- `parseCSV` of the source. -/
def parseCSV (csvText : Str) : ParseResult :=
  parseLines (splitLinesRec csvText [])

/-! ## Row classifiers -/

/-- `getRiskProfile` of the source. -/
def getRiskProfile (text : Str) : Str :=
  let t := lowerL text
  if hasWord t ["everyone".data] || isSubL "everyone except external users".data t then
    "Critical".data
  else if isSubL "visitor".data t || isSubL "excel services viewers".data t ||
      isSubL "portfolio viewers".data t then
    "Medium".data
  else if isSubL "owner".data t || isSubL "member".data t ||
      isSubL "administrator".data t || isSubL "project manager".data t ||
      isSubL "team lead".data t || isSubL "resource manager".data t then
    "Low".data
  else
    "Unknown".data

/-- Model of `s.replace(/^\./, '')`. -/
def stripDot : Str → Str
  | '.' :: r => r
  | s => s

/-- `getContentCategory` of the source. -/
def getContentCategory (ext : Str) : Str :=
  let e := stripDot (trimL (lowerL ext))
  if (["doc", "docx", "pdf", "xlsx", "xls", "ppt", "pptx", "folder"].map
      String.data).contains e then
    "Business".data
  else if (["aspx", "odc", "n/a", "unknown", ""].map String.data).contains e then
    "System".data
  else if (["jpg", "jpeg", "png", "gif", "mp4", "mp3", "wav", "mov"].map
      String.data).contains e then
    "Media".data
  else
    "Other".data

/-- `classifySharing` of the source: sharing level and permissiveness rank. -/
def classifySharing (rowText : Str) : Str × Nat :=
  let t := lowerL rowText
  if t = [] then ("Only Org".data, 1)
  else if hasWord t (["anyone", "anyonewithlink", "anyone with the link",
      "anonymous", "public"].map String.data) then
    ("External (Anonymous)".data, 4)
  else if hasWord t (["guest", "external", "new external", "new & existing",
      "new and existing", "newexisting"].map String.data) then
    ("External (New & Existing)".data, 3)
  else if hasWord t ["everyone".data] then ("Everyone".data, 2)
  else ("Only Org".data, 1)

/-! ## Numeric parsing (`parseNumber` in the source) -/

/-- Characters kept by `String(v).replace(/[^0-9.\-]/g, "")`. -/
def numKeep (c : Char) : Bool := c.isDigit || c = '.' || c = '-'

def digitsVal (l : Str) : ℕ :=
  l.foldl (fun acc c => 10 * acc + (c.toNat - '0'.toNat)) 0

/-- `Number(s)` on an (unsigned) string of digits and dots: the decimal
grammar `digits+ ('.' digits*)? | '.' digits+`; anything else is `NaN`. -/
def parseDecimal (l : Str) : Option ℚ :=
  let ip := l.takeWhile Char.isDigit
  let rest := l.dropWhile Char.isDigit
  match rest with
  | [] => if ip = [] then none else some (digitsVal ip)
  | '.' :: fp =>
    if fp.all Char.isDigit && (ip ≠ [] || fp ≠ []) then
      some ((digitsVal ip : ℚ) + (digitsVal fp : ℚ) / (10 ^ fp.length))
    else none
  | _ => none

/-- `Number(l)` on a string containing only digits, `.` and `-`;
`NaN`/non-finite results are mapped to `0` as in `parseNumber`. -/
def jsNumber : Str → ℚ
  | [] => 0
  | '-' :: rest => match parseDecimal rest with
    | some q => -q
    | none => 0
  | l => (parseDecimal l).getD 0

/-- `parseNumber` of the source (`none` = JS `undefined`/`null`). -/
def parseNumber (v : Option Str) : ℚ :=
  match v with
  | none => 0
  | some s => jsNumber (s.filter numKeep)

/-! ## Column inference -/

/-- The regex `/site(name|_name)?$|^site$|siteurl|weburl|web url/i` tested
against a header. -/
def siteHeaderTest (h : Str) : Bool :=
  let l := lowerL h
  endsWithL l "site".data || endsWithL l "sitename".data ||
    endsWithL l "site_name".data || l == "site".data ||
    isSubL "siteurl".data l || isSubL "weburl".data l ||
    isSubL "web url".data l

/-- `guessSiteColumn` of the source (`none` = JS `undefined`, which only
happens when the header list is empty). -/
def guessSiteColumn (headers : List Str) : Option Str :=
  match headers.filter siteHeaderTest with
  | [] => headers.head?
  | c :: _ => some c

/-- `findColumns` of the source: for each keyword in order, look for the
first header whose lowercased text contains the lowercased keyword. -/
def findColumns (headers : List Str) : List Str → Option Str
  | [] => none
  | k :: ks =>
    match (headers.map lowerL).findIdx? (fun h => isSubL (lowerL k) h) with
    | some i => some (headers.getD i [])
    | none => findColumns headers ks

def fileCountKeywords : List Str :=
  ["filecount", "sitefilecount", "itemcount", "documentcount", "count"].map String.data

def fileSizeKeywords : List Str :=
  ["filesize", "file_size", "size", "storageusage"].map String.data

def lastModKeywords : List Str :=
  ["lastmodified", "modified", "lastmodifieddate"].map String.data

def fileTypeKeywords : List Str :=
  ["extension", "filetype", "file_type", "type", "docicon", "itemtype"].map String.data

def fileNameKeywords : List Str :=
  ["filename", "file_name", "name", "itemname", "url", "path", "link"].map String.data

def permKeywords : List Str :=
  ["permissions", "perm", "usergroup", "group", "sharedwith", "access", "sharing"].map
    String.data

/-- The column-role state set by `updateColumnKeys`. -/
structure Roles where
  siteKey : Option Str
  fileCountKey : Option Str
  fileSizeKey : Option Str
  lastModKey : Option Str
  fileTypeKey : Option Str
  fileNameKey : Option Str
  permKey : Option Str
deriving DecidableEq

/-- `updateColumnKeys` of the source. -/
def rolesOf (hdrs : List Str) : Roles where
  siteKey := guessSiteColumn hdrs
  fileCountKey := findColumns hdrs fileCountKeywords
  fileSizeKey := findColumns hdrs fileSizeKeywords
  lastModKey := findColumns hdrs lastModKeywords
  fileTypeKey := findColumns hdrs fileTypeKeywords
  fileNameKey := findColumns hdrs fileNameKeywords
  permKey := findColumns hdrs permKeywords

/-- JS truthiness of a column key (`null`/`undefined`/`""` are falsy). -/
def keyTruthy : Option Str → Bool
  | none => false
  | some s => !s.isEmpty

/-- `r[k]` for an optional column key (`none` when the key itself is
absent, i.e. JS `undefined`). -/
def roleVal (r : Row) (k : Option Str) : Option Str :=
  k.bind (objGet r)

/-! ## File-extension extraction -/

/-- `getFileExtension` of the source. -/
def getFileExtension (roles : Roles) (r : Row) : Str :=
  let val : Str :=
    if keyTruthy roles.fileTypeKey && !((roleVal r roles.fileTypeKey).getD []).isEmpty then
      (roleVal r roles.fileTypeKey).getD []
    else if keyTruthy roles.fileNameKey && !((roleVal r roles.fileNameKey).getD []).isEmpty then
      let name := (roleVal r roles.fileNameKey).getD []
      let lastSegment := (List.splitOn '/' name).getLastD []
      let parts := List.splitOn '.' lastSegment
      if parts.length > 1 then
        (parts.getLastD []).takeWhile (fun c => c ≠ '?' && c ≠ '#')
      else []
    else []
  if val = [] then "unknown".data
  else
    let clean := stripDot (trimL (lowerL val))
    if 0 < clean.length && clean.length < 10 then clean else "unknown".data

/-! ## Filter engine (`filteredRows` in the source) -/

structure Filters where
  fileType : Str
  risk : Str
  category : Str

/-- `Object.values(r).join(" ")`: the text the risk filter scans. -/
def rowText (r : Row) : Str := joinSep " ".data (objValues r)

/-- The three `if (riskFilter === …) return false` tests of the source. -/
def riskReject (rf rp : Str) : Bool :=
  (rf == "Critical".data && rp != "Critical".data) ||
  (rf == "Medium".data && rp != "Medium".data) ||
  (rf == "Low".data && rp != "Low".data)

/-- The body of the `rows.filter(r => …)` callback in `filteredRows`. -/
def rowPass (roles : Roles) (f : Filters) (r : Row) : Bool :=
  if f.fileType != "All".data && getFileExtension roles r != f.fileType then false
  else if f.risk != "All".data && riskReject f.risk (getRiskProfile (rowText r)) then false
  else if f.category != "All".data &&
      getContentCategory (getFileExtension roles r) != f.category then false
  else true

/-- `filteredRows` of the source. -/
def filteredRows (roles : Roles) (f : Filters) (rows : List Row) : List Row :=
  if rows.isEmpty then [] else rows.filter (rowPass roles f)

/-! ## Site aggregation (`siteAgg` in the source) -/

structure Site where
  siteName : Str
  displayName : Str
  files : ℚ
  totalKB : ℚ
  totalMB : ℚ
  totalGB : ℚ
  lastModified : Option ℤ
  sharingLevel : Str
  sharingRank : Nat
  visibleEveryone : Bool
  visibleExternal : Bool
  rawRows : List Row

/-- The grouping key `(r[siteKey] || "(unknown)").trim()`. -/
def siteKeyOf (sk : Str) (r : Row) : Str :=
  let v := (objGet r sk).getD []
  trimL (if v = [] then "(unknown)".data else v)

/-- One step of the `Map` building loop: `map.get(s).push(r)` if the key
exists, else `map.set(s, [r])` (appended, preserving insertion order). -/
def addToGroup : List (Str × List Row) → Str → Row → List (Str × List Row)
  | [], k, r => [(k, [r])]
  | g :: gs, k, r =>
    if g.1 == k then (g.1, g.2 ++ [r]) :: gs else g :: addToGroup gs k r

/-- The full `Map` building loop of `siteAgg`. -/
def groupRows (sk : Str) (rows : List Row) : List (Str × List Row) :=
  rows.foldl (fun gs r => addToGroup gs (siteKeyOf sk r) r) []

/-- The per-group body of `siteAgg`.  `dp` models `new Date(·).getTime()`. -/
def mkSite (dp : Str → Option ℤ) (roles : Roles) (g : Str × List Row) : Site :=
  let siteRows := g.2
  let combinedText :=
    joinSep " ".data (siteRows.map (fun rr => joinSep " ".data (objValues rr)))
  let sharing := classifySharing combinedText
  let files : ℚ :=
    if keyTruthy roles.fileCountKey then
      siteRows.foldl (fun acc r => acc + parseNumber (roleVal r roles.fileCountKey)) 0
    else (siteRows.length : ℚ)
  let totalKB : ℚ :=
    if keyTruthy roles.fileSizeKey then
      siteRows.foldl (fun acc r => acc + parseNumber (roleVal r roles.fileSizeKey)) 0
    else 0
  let lastDates : List ℤ := siteRows.filterMap (fun r =>
    let v := (roleVal r roles.lastModKey).getD []
    if v = [] then none else dp v)
  { siteName := g.1
    displayName := g.1
    files := files
    totalKB := totalKB
    totalMB := totalKB / 1024
    totalGB := totalKB / 1024 / 1024
    lastModified := lastDates.max?
    sharingLevel := sharing.1
    sharingRank := sharing.2
    visibleEveryone := hasWord (lowerL combinedText) ["everyone".data]
    visibleExternal := hasWord (lowerL combinedText)
      (["external", "guest", "anon", "anyone"].map String.data)
    rawRows := siteRows }

/-- `siteAgg` of the source (the `sites` component; the guard returns an
empty list when the filtered row set is empty or the site key is falsy).
The final `sites.sort((a,b) => b.files - a.files)` is modelled by a stable
comparator-consistent sort. -/
def siteAgg (dp : Str → Option ℤ) (roles : Roles) (rows : List Row) : List Site :=
  match roles.siteKey with
  | none => []
  | some sk =>
    if rows.isEmpty || sk.isEmpty then []
    else
      List.insertionSort (fun a b => b.files - a.files ≤ 0)
        ((groupRows sk rows).map (mkSite dp roles))

/-! ## Dashboard summary (`summary` in the source) -/

structure Summary where
  totalSites : ℕ
  publicSites : ℕ
  publicPct : ℚ
  everyoneSites : ℕ
  everyonePct : ℚ
  totalKB : ℚ
  totalMB : ℚ
  totalGB : ℚ
  totalFiles : ℚ

/-- `Math.round` on an exact rational. -/
def jsRound (q : ℚ) : ℤ := ⌊q + 1 / 2⌋

/-- `summary` of the source (the staleness threshold, which is wall-clock
dependent, is outside the modelled scope). -/
def summaryOf (sites : List Site) : Summary :=
  let totalSites := sites.length
  let publicSites := (sites.filter (fun s =>
    s.sharingLevel == "External (Anonymous)".data || s.visibleExternal)).length
  let everyoneSites := (sites.filter (fun s =>
    s.visibleEveryone || s.visibleExternal)).length
  let totalKB := sites.foldl (fun acc s => acc + s.totalKB) 0
  let totalFiles := sites.foldl (fun acc s => acc + s.files) 0
  { totalSites := totalSites
    publicSites := publicSites
    publicPct := if totalSites ≠ 0 then
        (jsRound ((publicSites : ℚ) / (totalSites : ℚ) * 10000) : ℚ) / 100
      else 0
    everyoneSites := everyoneSites
    everyonePct := if totalSites ≠ 0 then
        (jsRound ((everyoneSites : ℚ) / (totalSites : ℚ) * 10000) : ℚ) / 100
      else 0
    totalKB := totalKB
    totalMB := totalKB / 1024
    totalGB := totalKB / 1024 / 1024
    totalFiles := totalFiles }

/-! ## Site table view (`filteredSites` in the source) -/

/-- Sign of `a.localeCompare(b)`, modelled as code-point lexicographic
comparison (the locale-sensitive refinements of `localeCompare` are not
load-bearing for any property proved here). -/
def lexCmp : Str → Str → ℤ
  | [], [] => 0
  | [], _ :: _ => -1
  | _ :: _, [] => 1
  | a :: as, b :: bs => if a < b then -1 else if b < a then 1 else lexCmp as bs

/-- The sort comparator of the site table (`dir * (…)`). -/
def siteCmp (key dir : Str) (a b : Site) : ℚ :=
  let d : ℚ := if dir == "asc".data then 1 else -1
  if key == "name".data then d * (lexCmp a.siteName b.siteName : ℚ)
  else if key == "files".data then d * (a.files - b.files)
  else if key == "kb".data then d * (a.totalKB - b.totalKB)
  else if key == "last".data then
    d * (((a.lastModified.getD 0 : ℤ) : ℚ) - ((b.lastModified.getD 0 : ℤ) : ℚ))
  else 0

/-- `filteredSites` of the source: sharing filter, then search filter, then
comparator sort (stable comparator-consistent sort modelled by
`insertionSort`). -/
def filteredSites (sites : List Site) (search sharing key dir : Str) : List Site :=
  let q := trimL (lowerL search)
  let arr1 := if !sharing.isEmpty && sharing != "all".data then
      sites.filter (fun s => s.sharingLevel == sharing)
    else sites
  let arr2 := if !q.isEmpty then
      arr1.filter (fun s => isSubL q (lowerL s.siteName))
    else arr1
  List.insertionSort (fun a b => siteCmp key dir a b ≤ 0) arr2

/-! ## CSV export (`downloadCSV` in the source) -/

/-- `String(v).replace(/"/g, '""')`. -/
def escQuotes : Str → Str
  | [] => []
  | '"' :: r => '"' :: '"' :: escQuotes r
  | c :: r => c :: escQuotes r

/-- One exported field: `` `"${String(r[k] ?? "").replace(/"/g,'""')}"` ``. -/
def csvField (v : Str) : Str := '"' :: (escQuotes v ++ ['"'])

/-- The text assembled by `downloadCSV` (the source returns without
producing a file for an empty array; we model that as empty text). -/
def downloadCSVText (arr : List Row) : Str :=
  match arr with
  | [] => []
  | a0 :: _ =>
    let keys := a0.map (·.1)
    joinSep "\n".data
      (joinSep ",".data keys ::
        arr.map (fun r =>
          joinSep ",".data (keys.map (fun k => csvField ((objGet r k).getD [])))))

/-! ## Grouping lemmas -/

theorem mkSite_rawRows (dp : Str → Option ℤ) (roles : Roles) (g : Str × List Row) :
    (mkSite dp roles g).rawRows = g.2 := rfl

theorem mkSite_siteName (dp : Str → Option ℤ) (roles : Roles) (g : Str × List Row) :
    (mkSite dp roles g).siteName = g.1 := rfl

theorem mkSite_files_none (dp : Str → Option ℤ) (roles : Roles) (g : Str × List Row)
    (h : roles.fileCountKey = none) : (mkSite dp roles g).files = (g.2.length : ℚ) := by
  simp [mkSite, h, keyTruthy]

theorem addToGroup_flat (gs : List (Str × List Row)) (k : Str) (r : Row) :
    ((addToGroup gs k r).flatMap (·.2)).Perm ((gs.flatMap (·.2)) ++ [r]) := by
  induction gs with
  | nil => simp [addToGroup]
  | cons g gs ih =>
    by_cases h : g.1 = k
    · have hstep : ((addToGroup (g :: gs) k r).flatMap (·.2)) =
          g.2 ++ ([r] ++ gs.flatMap (·.2)) := by
        simp [addToGroup, h, List.flatMap_cons]
      rw [hstep]
      have h2 : (((g :: gs).flatMap (·.2)) ++ [r]) =
          g.2 ++ ((gs.flatMap (·.2)) ++ [r]) := by simp
      rw [h2]
      exact (@List.perm_append_comm _ [r] (gs.flatMap (·.2))).append_left g.2
    · have hbe : (g.1 == k) = false := by simp [h]
      have hstep : ((addToGroup (g :: gs) k r).flatMap (·.2)) =
          g.2 ++ ((addToGroup gs k r).flatMap (·.2)) := by
        simp [addToGroup, hbe, List.flatMap_cons]
      rw [hstep]
      have h2 : (((g :: gs).flatMap (·.2)) ++ [r]) =
          g.2 ++ ((gs.flatMap (·.2)) ++ [r]) := by simp
      rw [h2]
      exact ih.append_left g.2

theorem foldl_group_flat (sk : Str) (rows : List Row) :
    ∀ gs : List (Str × List Row),
      ((rows.foldl (fun gs r => addToGroup gs (siteKeyOf sk r) r) gs).flatMap (·.2)).Perm
        ((gs.flatMap (·.2)) ++ rows) := by
  induction rows with
  | nil => intro gs; simp
  | cons r rest ih =>
    intro gs
    simp only [List.foldl_cons]
    have h1 := ih (addToGroup gs (siteKeyOf sk r) r)
    have h2 := (addToGroup_flat gs (siteKeyOf sk r) r).append_right rest
    have h3 : (((gs.flatMap (·.2)) ++ [r]) ++ rest) =
        (gs.flatMap (·.2)) ++ (r :: rest) := by simp
    rw [h3] at h2
    exact h1.trans h2

theorem groupRows_flat (sk : Str) (rows : List Row) :
    ((groupRows sk rows).flatMap (·.2)).Perm rows := by
  have h := foldl_group_flat sk rows []
  simpa [groupRows] using h

theorem addToGroup_mem_new (gs : List (Str × List Row)) (k : Str) (r : Row) :
    ∃ g ∈ addToGroup gs k r, g.1 = k ∧ r ∈ g.2 := by
  induction gs with
  | nil => exact ⟨(k, [r]), by simp [addToGroup]⟩
  | cons g gs ih =>
    by_cases h : g.1 = k
    · refine ⟨(g.1, g.2 ++ [r]), ?_, h, by simp⟩
      simp [addToGroup, h]
    · obtain ⟨g1, hg1, hk, hr⟩ := ih
      have hbe : (g.1 == k) = false := by simp [h]
      exact ⟨g1, by simp [addToGroup, hbe, hg1], hk, hr⟩

theorem addToGroup_mem_old (gs : List (Str × List Row)) (k : Str) (r : Row)
    (g0 : Str × List Row) (h : g0 ∈ gs) :
    ∃ g1 ∈ addToGroup gs k r, g1.1 = g0.1 ∧ ∀ x ∈ g0.2, x ∈ g1.2 := by
  induction gs with
  | nil => cases h
  | cons g gs ih =>
    by_cases hk : g.1 = k
    · rcases List.mem_cons.mp h with h0 | h0
      · exact ⟨(g.1, g.2 ++ [r]), by simp [addToGroup, hk], by rw [h0],
          fun x hx => by simp [h0 ▸ hx]⟩
      · exact ⟨g0, by simp [addToGroup, hk, h0], rfl, fun x hx => hx⟩
    · have hbe : (g.1 == k) = false := by simp [hk]
      rcases List.mem_cons.mp h with h0 | h0
      · exact ⟨g, by simp [addToGroup, hbe], by rw [h0], fun x hx => h0 ▸ hx⟩
      · obtain ⟨g1, hg1, he, hsub⟩ := ih h0
        exact ⟨g1, by simp [addToGroup, hbe, hg1], he, hsub⟩

theorem foldl_group_mem_old (sk : Str) (rows : List Row) :
    ∀ (gs : List (Str × List Row)) (g0 : Str × List Row), g0 ∈ gs →
      ∃ g1 ∈ rows.foldl (fun gs r => addToGroup gs (siteKeyOf sk r) r) gs,
        g1.1 = g0.1 ∧ ∀ x ∈ g0.2, x ∈ g1.2 := by
  induction rows with
  | nil => intro gs g0 h; exact ⟨g0, h, rfl, fun x hx => hx⟩
  | cons r rest ih =>
    intro gs g0 h
    obtain ⟨g1, hg1, he1, hs1⟩ := addToGroup_mem_old gs (siteKeyOf sk r) r g0 h
    obtain ⟨g2, hg2, he2, hs2⟩ := ih (addToGroup gs (siteKeyOf sk r) r) g1 hg1
    exact ⟨g2, hg2, he2.trans he1, fun x hx => hs2 x (hs1 x hx)⟩

theorem groupRows_mem (sk : Str) (rows : List Row) (r : Row) (hr : r ∈ rows) :
    ∃ g ∈ groupRows sk rows, g.1 = siteKeyOf sk r ∧ r ∈ g.2 := by
  suffices h : ∀ (l : List Row) (gs : List (Str × List Row)), r ∈ l →
      ∃ g ∈ l.foldl (fun gs r => addToGroup gs (siteKeyOf sk r) r) gs,
        g.1 = siteKeyOf sk r ∧ r ∈ g.2 from h rows [] hr
  intro l
  induction l with
  | nil => intro gs h; cases h
  | cons a rest ih =>
    intro gs h
    rcases List.mem_cons.mp h with h0 | h0
    · subst h0
      obtain ⟨g1, hg1, he, hmem⟩ := addToGroup_mem_new gs (siteKeyOf sk r) r
      obtain ⟨g2, hg2, he2, hs2⟩ :=
        foldl_group_mem_old sk rest (addToGroup gs (siteKeyOf sk r) r) g1 hg1
      exact ⟨g2, hg2, he2.trans he, hs2 r hmem⟩
    · exact ih (addToGroup gs (siteKeyOf sk a) a) h0

theorem siteAgg_eq (dp : Str → Option ℤ) (roles : Roles) (rows : List Row) (sk : Str)
    (h1 : roles.siteKey = some sk) (h2 : sk ≠ []) (h3 : rows ≠ []) :
    siteAgg dp roles rows =
      List.insertionSort (fun a b => b.files - a.files ≤ 0)
        ((groupRows sk rows).map (mkSite dp roles)) := by
  unfold siteAgg
  rw [h1]
  have e1 : rows.isEmpty = false := by
    cases rows with
    | nil => exact absurd rfl h3
    | cons a l => rfl
  have e2 : sk.isEmpty = false := by
    cases sk with
    | nil => exact absurd rfl h2
    | cons a l => rfl
  simp [e1, e2]

/-- C1. Site aggregation partitions the filtered rows: the concatenation of
all aggregates' `rawRows` is a permutation of the filtered row set (each row
in exactly one aggregate), the aggregate sizes sum to the filtered row
count, and with no `fileCount` role the `files` fields sum to that count. -/
theorem siteAgg_partition (dp : Str → Option ℤ) (roles : Roles) (rows : List Row)
    (sk : Str) (h1 : roles.siteKey = some sk) (h2 : sk ≠ []) :
    ((siteAgg dp roles rows).flatMap (·.rawRows)).Perm rows ∧
    ((siteAgg dp roles rows).map (fun s => s.rawRows.length)).sum = rows.length ∧
    (roles.fileCountKey = none →
      ((siteAgg dp roles rows).map (·.files)).sum = (rows.length : ℚ)) := by
  by_cases h3 : rows = []
  · subst h3
    simp [siteAgg, h1]
  · rw [siteAgg_eq dp roles rows sk h1 h2 h3]
    have hperm0 :
        (List.insertionSort (fun a b => b.files - a.files ≤ 0)
          ((groupRows sk rows).map (mkSite dp roles))).Perm
          ((groupRows sk rows).map (mkSite dp roles)) :=
      List.perm_insertionSort _ _
    have hmm : (((groupRows sk rows).map (mkSite dp roles)).flatMap (·.rawRows)) =
        (groupRows sk rows).flatMap (·.2) := by
      rw [List.flatMap_map]
      rfl
    have hflat :
        ((List.insertionSort (fun a b => b.files - a.files ≤ 0)
          ((groupRows sk rows).map (mkSite dp roles))).flatMap (·.rawRows)).Perm rows :=
      (hperm0.flatMap_right _).trans (hmm ▸ groupRows_flat sk rows)
    refine ⟨hflat, ?_, ?_⟩
    · have hlen := hflat.length_eq
      rw [List.length_flatMap] at hlen
      simpa [Function.comp] using hlen
    · intro hfc
      have hs := (hperm0.map (·.files)).sum_eq
      rw [hs]
      have e1 : (((groupRows sk rows).map (mkSite dp roles)).map (·.files)) =
          (groupRows sk rows).map (fun g => (g.2.length : ℚ)) := by
        rw [List.map_map]
        exact List.map_congr_left (fun g _ => mkSite_files_none dp roles g hfc)
      rw [e1]
      have e3 : ((groupRows sk rows).map (fun g => g.2.length)).sum = rows.length := by
        have hl := (groupRows_flat sk rows).length_eq
        rw [List.length_flatMap] at hl
        simpa [Function.comp] using hl
      rw [← e3, Nat.cast_list_sum, List.map_map]
      rfl

/-- Witness for `siteAgg_partition` at a concrete two-site input. -/
theorem siteAgg_partition_witness :
    (((siteAgg (fun _ => none) ⟨some "Site".data, none, none, none, none, none, none⟩
        [[("Site".data, "A".data)], [("Site".data, "B".data)], [("Site".data, "A".data)]]).flatMap
        (·.rawRows)).Perm
      [[("Site".data, "A".data)], [("Site".data, "B".data)], [("Site".data, "A".data)]]) ∧
    (((siteAgg (fun _ => none) ⟨some "Site".data, none, none, none, none, none, none⟩
        [[("Site".data, "A".data)], [("Site".data, "B".data)], [("Site".data, "A".data)]]).map
        (fun s => s.rawRows.length)).sum = 3) ∧
    ((⟨some "Site".data, none, none, none, none, none, none⟩ : Roles).fileCountKey = none →
      ((siteAgg (fun _ => none) ⟨some "Site".data, none, none, none, none, none, none⟩
        [[("Site".data, "A".data)], [("Site".data, "B".data)], [("Site".data, "A".data)]]).map
        (·.files)).sum = (3 : ℚ)) :=
  siteAgg_partition (fun _ => none) _ _ "Site".data rfl (by decide)

/-- C2 (corrected): the bucket of a row in the aggregation output is
`trim(value || "(unknown)")`: the `(unknown)` fallback applies only to a
missing or exactly-empty site value, *before* trimming. -/
theorem siteAgg_bucket_key (dp : Str → Option ℤ) (roles : Roles) (rows : List Row)
    (sk : Str) (r : Row) (h1 : roles.siteKey = some sk) (h2 : sk ≠ []) (hr : r ∈ rows) :
    ∃ s ∈ siteAgg dp roles rows, r ∈ s.rawRows ∧
      s.siteName = trimL (if (objGet r sk).getD [] = [] then "(unknown)".data
        else (objGet r sk).getD []) := by
  rw [siteAgg_eq dp roles rows sk h1 h2 (List.ne_nil_of_mem hr)]
  obtain ⟨g, hg, hk, hrg⟩ := groupRows_mem sk rows r hr
  have hmem : mkSite dp roles g ∈ (groupRows sk rows).map (mkSite dp roles) :=
    List.mem_map_of_mem _ hg
  have hperm := List.perm_insertionSort (fun a b => b.files - a.files ≤ 0)
    ((groupRows sk rows).map (mkSite dp roles))
  refine ⟨mkSite dp roles g, hperm.mem_iff.mpr hmem, ?_, ?_⟩
  · rw [mkSite_rawRows]
    exact hrg
  · rw [mkSite_siteName, hk]
    rfl

/-- Counterexample to C2 as stated: a whitespace-only site value does
*not* land in the `(unknown)` bucket — it lands in the empty-string
bucket, because the source trims *after* the `|| "(unknown)"` fallback. -/
theorem siteAgg_whitespace_bucket_cex :
    ((siteAgg (fun _ => none) ⟨some "Site".data, none, none, none, none, none, none⟩
        [[("Site".data, " ".data)]]).map (·.siteName)) = [([] : Str)] ∧
      ([] : Str) ≠ "(unknown)".data := by
  constructor
  · decide
  · decide

/-- Witness for `siteAgg_bucket_key` at a concrete input: a site value
`"  A "` buckets under its trimmed form. -/
theorem siteAgg_bucket_key_witness :
    ∃ s ∈ siteAgg (fun _ => none) ⟨some "Site".data, none, none, none, none, none, none⟩
        [[("Site".data, "  A ".data)]],
      [("Site".data, "  A ".data)] ∈ s.rawRows ∧
      s.siteName = trimL (if (objGet [("Site".data, "  A ".data)] "Site".data).getD [] = []
        then "(unknown)".data else (objGet [("Site".data, "  A ".data)] "Site".data).getD []) :=
  siteAgg_bucket_key (fun _ => none) _ _ "Site".data _ rfl (by decide) (by decide)

/-! ## C9: risk filter value "Unknown" -/

/-- C9. Selecting the risk-filter value `"Unknown"` excludes no row: the
risk predicate only rejects for the selected values Critical/Medium/Low, so
filtering with `"Unknown"` coincides with filtering with `"All"` and the
result depends only on the file-type and content-category filters. -/
theorem riskFilter_unknown_passthrough (roles : Roles) (ft cat : Str) (rows : List Row) :
    filteredRows roles ⟨ft, "Unknown".data, cat⟩ rows =
      filteredRows roles ⟨ft, "All".data, cat⟩ rows ∧
    ∀ rp : Str, riskReject "Unknown".data rp = false :=
  ⟨rfl, fun _ => rfl⟩

/-! ## C10: duplicate header names -/

theorem objGet_cons (x : Str × Str) (l : Row) (h : Str) :
    objGet (x :: l) h = if x.1 == h then some x.2 else objGet l h := by
  by_cases hx : x.1 = h
  · simp [objGet, List.find?_cons, hx]
  · have hb : (x.1 == h) = false := by simp [hx]
    simp [objGet, List.find?_cons, hb]

theorem objGet_objSet (r0 : Row) (k v h : Str) :
    objGet (objSet r0 k v) h = if k == h then some v else objGet r0 h := by
  induction r0 with
  | nil =>
    show objGet [(k, v)] h = if k == h then some v else objGet [] h
    rw [objGet_cons]
  | cons p r ih =>
    by_cases hpk : p.1 = k
    · have hb : (p.1 == k) = true := by simp [hpk]
      have e1 : objSet (p :: r) k v = (p.1, v) :: r := by simp [objSet, hb]
      rw [e1, objGet_cons, objGet_cons, hpk]
      by_cases hkh : k = h
      · simp [hkh]
      · have hb2 : (k == h) = false := by simp [hkh]
        simp [hb2]
    · have hb : (p.1 == k) = false := by simp [hpk]
      have e1 : objSet (p :: r) k v = p :: objSet r k v := by simp [objSet, hb]
      rw [e1, objGet_cons, objGet_cons, ih]
      by_cases hph : p.1 = h
      · have hkh : (k == h) = false := by
          simp only [beq_eq_false_iff_ne, ne_eq]
          intro he
          exact hpk (hph.trans he.symm)
        simp [hph, hkh]
      · have hb2 : (p.1 == h) = false := by simp [hph]
        simp [hb2]

theorem foldl_objSet_get (f : ℕ × Str → Str) (ps : List (ℕ × Str)) (r0 : Row) (h : Str) :
    objGet (ps.foldl (fun row p => objSet row p.2 (f p)) r0) h =
      ((ps.reverse.find? (fun p => p.2 == h)).map f).or (objGet r0 h) := by
  induction ps generalizing r0 with
  | nil => simp
  | cons p ps ih =>
    simp only [List.foldl_cons, List.reverse_cons, List.find?_append]
    rw [ih, objGet_objSet]
    by_cases hp : p.2 = h
    · simp only [hp, beq_self_eq_true, if_true, List.find?_cons, List.find?_nil]
      cases hfind : ps.reverse.find? (fun q => q.2 == h) with
      | none => simp
      | some q => simp
    · have hb : (p.2 == h) = false := by simp [hp]
      simp only [hb, if_false, List.find?_cons, List.find?_nil]
      cases hfind : ps.reverse.find? (fun q => q.2 == h) with
      | none => simp
      | some q => simp

theorem find?_eq_head?_filter {α : Type} (q : α → Bool) (l : List α) :
    l.find? q = (l.filter q).head? := by
  induction l with
  | nil => rfl
  | cons a l ih =>
    by_cases ha : q a
    · simp [List.find?_cons, List.filter_cons, ha]
    · have hb : q a = false := by simpa using ha
      rw [List.find?_cons, List.filter_cons, hb]
      simp only [Bool.false_eq_true, if_false]
      exact ih

theorem reverse_find?_eq_getLast?_filter {α : Type} (q : α → Bool) (l : List α) :
    l.reverse.find? q = (l.filter q).getLast? := by
  rw [find?_eq_head?_filter, List.filter_reverse, List.head?_reverse]

/-- C10. A JS object stores one value per key: a row built from a header
list with duplicates keeps, for each name, only the value of the *last*
column bearing that name; the parser's header sequence still lists the
name once per occurrence. -/
theorem buildRow_dup_header_last_wins :
    (∀ (hs vs : List Str) (h : Str),
      objGet (buildRow hs vs) h =
        ((hs.enum.filter (fun p => p.2 == h)).getLast?).map (fun p => vs.getD p.1 [])) ∧
    parseCSV "A,A\n1,2".data =
      ⟨[[("A".data, "2".data)]], ["A".data, "A".data]⟩ := by
  constructor
  · intro hs vs h
    have h1 := foldl_objSet_get (fun p => vs.getD p.1 []) hs.enum [] h
    rw [reverse_find?_eq_getLast?_filter] at h1
    simpa [buildRow, objGet] using h1
  · decide

/-! ## C3: column inference priority -/

/-- The assignment rule as the specification words it: the first header in
original header order whose lowercased text contains any keyword. -/
def findColumnsHeaderFirst (headers keywords : List Str) : Option Str :=
  headers.find? (fun h => keywords.any (fun k => isSubL (lowerL k) (lowerL h)))

theorem findIdx?_shift {α : Type} (q : α → Bool) (l : List α) :
    ∀ n : ℕ, List.findIdx? q l n = (List.findIdx? q l).map (fun i => i + n) := by
  induction l with
  | nil => intro n; rfl
  | cons a l ih =>
    intro n
    rw [List.findIdx?_cons, List.findIdx?_cons]
    by_cases ha : q a
    · simp [ha]
    · simp only [ha, if_false, Bool.false_eq_true]
      rw [ih (n + 1), ih 1, Option.map_map]
      have e : ((fun i => i + n) ∘ fun i => i + 1) = fun i => i + (n + 1) := by
        funext i
        simp only [Function.comp_apply]
        omega
      rw [e]

theorem findIdx?_getD (k : Str) (headers : List Str) :
    ((headers.map lowerL).findIdx? (fun h => isSubL (lowerL k) h)).map
        (fun i => headers.getD i []) =
      headers.find? (fun h => isSubL (lowerL k) (lowerL h)) := by
  induction headers with
  | nil => rfl
  | cons h hs ih =>
    rw [List.map_cons, List.findIdx?_cons, List.find?_cons]
    by_cases hh : isSubL (lowerL k) (lowerL h)
    · simp [hh]
    · simp only [hh, if_false, Bool.false_eq_true]
      rw [findIdx?_shift, Option.map_map]
      have e : ((fun i => (h :: hs).getD i []) ∘ fun i => i + 1) =
          fun i => hs.getD i [] := by
        funext i
        simp [Function.comp]
      rw [e, ih]

theorem findColumns_cons_eq (headers : List Str) (k : Str) (ks : List Str) :
    findColumns headers (k :: ks) =
      match headers.find? (fun h => isSubL (lowerL k) (lowerL h)) with
      | some h => some h
      | none => findColumns headers ks := by
  rw [findColumns, ← findIdx?_getD k headers]
  cases (headers.map lowerL).findIdx? (fun h => isSubL (lowerL k) h) with
  | none => rfl
  | some i => rfl

/-- C3 (corrected): `findColumns` assigns by *keyword priority first*: the
result is determined by the first keyword (in list order) contained in some
header, and among headers containing that keyword the first in original
header order wins; no keyword match yields no header (not an error). -/
theorem findColumns_keyword_priority (headers keywords : List Str) :
    findColumns headers keywords =
      (keywords.find? (fun k =>
        headers.any (fun h => isSubL (lowerL k) (lowerL h)))).bind
        (fun k => headers.find? (fun h => isSubL (lowerL k) (lowerL h))) := by
  induction keywords with
  | nil => rfl
  | cons k ks ih =>
    rw [findColumns_cons_eq, List.find?_cons]
    by_cases hk : headers.any (fun h => isSubL (lowerL k) (lowerL h))
    · simp only [hk, if_true]
      obtain ⟨h0, hmem, hh0⟩ := List.any_eq_true.mp hk
      cases hfind : headers.find? (fun h => isSubL (lowerL k) (lowerL h)) with
      | none => exact absurd (List.find?_eq_none.mp hfind h0 hmem) (by simp [hh0])
      | some h1 => simp [hfind]
    · have hb : headers.any (fun h => isSubL (lowerL k) (lowerL h)) = false := by
        simpa using hk
      simp only [hb, Bool.false_eq_true, if_false]
      cases hfind : headers.find? (fun h => isSubL (lowerL k) (lowerL h)) with
      | none => exact ih
      | some h1 =>
        have hsome := List.find?_some hfind
        have hmem := List.mem_of_find?_eq_some hfind
        have hany : headers.any (fun h => isSubL (lowerL k) (lowerL h)) = true :=
          List.any_eq_true.mpr ⟨h1, hmem, hsome⟩
        rw [hany] at hb
        simp at hb

/-- Counterexample to C3 as stated: with headers `["size", "filesize"]` and
the fileSize keyword list, the first header containing *any* keyword is
`"size"`, but the source assigns `"filesize"` because the keyword
`"filesize"` has higher priority than `"size"`. -/
theorem findColumns_header_first_cex :
    findColumns ["size".data, "filesize".data] fileSizeKeywords = some "filesize".data ∧
    findColumnsHeaderFirst ["size".data, "filesize".data] fileSizeKeywords =
      some "size".data ∧
    some "filesize".data ≠ some "size".data := by
  refine ⟨by decide, by decide, by decide⟩

/-! ## C4: the risk filter scans the whole row -/

theorem ite3_eq_true_iff (a b c : Bool) :
    (if a then false else if b then false else if c then false else true) = true ↔
      (a = false ∧ b = false ∧ c = false) := by
  cases a <;> cases b <;> cases c <;> simp

theorem rowPass_iff (roles : Roles) (f : Filters) (r : Row) :
    rowPass roles f r = true ↔
      ((f.fileType != "All".data && getFileExtension roles r != f.fileType) = false ∧
       (f.risk != "All".data && riskReject f.risk (getRiskProfile (rowText r))) = false ∧
       (f.category != "All".data &&
         getContentCategory (getFileExtension roles r) != f.category) = false) := by
  have e : rowPass roles f r =
      (if (f.fileType != "All".data && getFileExtension roles r != f.fileType) then false
       else if (f.risk != "All".data &&
         riskReject f.risk (getRiskProfile (rowText r))) then false
       else if (f.category != "All".data &&
         getContentCategory (getFileExtension roles r) != f.category) then false
       else true) := rfl
  rw [e, ite3_eq_true_iff]

/-- C4. For a selected risk among Critical/Medium/Low, a row is kept
exactly when `getRiskProfile` of the space-joined concatenation of *all*
of the row's field values equals the selected risk (and the other two
filters pass); in particular text such as "Everyone" in any column, not
just a permissions column, drives the risk filter. -/
theorem riskFilter_scans_full_row (roles : Roles) (f : Filters) (rows : List Row) (r : Row)
    (h : f.risk = "Critical".data ∨ f.risk = "Medium".data ∨ f.risk = "Low".data) :
    r ∈ filteredRows roles f rows ↔
      r ∈ rows ∧ getRiskProfile (rowText r) = f.risk ∧
        (f.fileType = "All".data ∨ getFileExtension roles r = f.fileType) ∧
        (f.category = "All".data ∨
          getContentCategory (getFileExtension roles r) = f.category) := by
  have hfr : filteredRows roles f rows = rows.filter (rowPass roles f) := by
    unfold filteredRows
    cases rows with
    | nil => rfl
    | cons a l => rfl
  rw [hfr, List.mem_filter, rowPass_iff]
  have i1 : (f.fileType != "All".data && getFileExtension roles r != f.fileType) = false ↔
      (f.fileType = "All".data ∨ getFileExtension roles r = f.fileType) := by
    simp only [Bool.and_eq_false_iff, bne_eq_false_iff_eq]
  have i3 : (f.category != "All".data &&
      getContentCategory (getFileExtension roles r) != f.category) = false ↔
      (f.category = "All".data ∨
        getContentCategory (getFileExtension roles r) = f.category) := by
    simp only [Bool.and_eq_false_iff, bne_eq_false_iff_eq]
  have i2 : (f.risk != "All".data &&
      riskReject f.risk (getRiskProfile (rowText r))) = false ↔
      getRiskProfile (rowText r) = f.risk := by
    rcases h with h | h | h <;> rw [h]
    · have hne : ("Critical".data != "All".data) = true := by decide
      have e : riskReject "Critical".data (getRiskProfile (rowText r)) =
          (((getRiskProfile (rowText r) != "Critical".data) || false) || false) := rfl
      rw [hne, Bool.true_and, e, Bool.or_false, Bool.or_false]
      simp [bne]
    · have hne : ("Medium".data != "All".data) = true := by decide
      have e : riskReject "Medium".data (getRiskProfile (rowText r)) =
          ((getRiskProfile (rowText r) != "Medium".data) || false) := rfl
      rw [hne, Bool.true_and, e, Bool.or_false]
      simp [bne]
    · have hne : ("Low".data != "All".data) = true := by decide
      have e : riskReject "Low".data (getRiskProfile (rowText r)) =
          (getRiskProfile (rowText r) != "Low".data) := rfl
      rw [hne, Bool.true_and, e]
      simp [bne]
  rw [i1, i2, i3]
  constructor
  · rintro ⟨ha, hb, hc, hd⟩
    exact ⟨ha, hc, hb, hd⟩
  · rintro ⟨ha, hb, hc, hd⟩
    exact ⟨ha, hc, hb, hd⟩

/-- Witness for `riskFilter_scans_full_row`: with risk filter "Critical", a
row whose *Description* column contains "Everyone" is kept even though no
permissions column exists. -/
theorem riskFilter_scans_full_row_witness :
    [("FileName".data, "a.docx".data), ("Description".data, "Everyone can view".data)] ∈
      filteredRows (rolesOf ["FileName".data, "Description".data])
        ⟨"All".data, "Critical".data, "All".data⟩
        [[("FileName".data, "a.docx".data), ("Description".data, "Everyone can view".data)]] :=
  (riskFilter_scans_full_row (rolesOf ["FileName".data, "Description".data])
      ⟨"All".data, "Critical".data, "All".data⟩ _ _ (Or.inl rfl)).mpr
    ⟨by decide, by decide, Or.inl rfl, Or.inl rfl⟩

/-! ## C8: header-only CSV -/

theorem siteAgg_nil_rows (dp : Str → Option ℤ) (roles : Roles) :
    siteAgg dp roles [] = [] := by
  unfold siteAgg
  cases roles.siteKey with
  | none => rfl
  | some sk => rfl

/-- C8. A CSV whose parse yields zero data rows (e.g. a header-only file)
produces zero Site Aggregates, `totalSites = 0`, and both percentage
metrics are the guarded value `0` — the division branch is never taken. -/
theorem header_only_csv_summary (csvText : Str) (f : Filters) (dp : Str → Option ℤ)
    (h : (parseCSV csvText).data = []) :
    siteAgg dp (rolesOf (parseCSV csvText).fields)
        (filteredRows (rolesOf (parseCSV csvText).fields) f (parseCSV csvText).data) = [] ∧
    (summaryOf (siteAgg dp (rolesOf (parseCSV csvText).fields)
        (filteredRows (rolesOf (parseCSV csvText).fields) f
          (parseCSV csvText).data))).totalSites = 0 ∧
    (summaryOf (siteAgg dp (rolesOf (parseCSV csvText).fields)
        (filteredRows (rolesOf (parseCSV csvText).fields) f
          (parseCSV csvText).data))).publicPct = 0 ∧
    (summaryOf (siteAgg dp (rolesOf (parseCSV csvText).fields)
        (filteredRows (rolesOf (parseCSV csvText).fields) f
          (parseCSV csvText).data))).everyonePct = 0 := by
  rw [h]
  rw [show filteredRows (rolesOf (parseCSV csvText).fields) f [] = [] from rfl]
  rw [siteAgg_nil_rows]
  exact ⟨rfl, rfl, rfl, rfl⟩

/-- Witness for `header_only_csv_summary` on the header-only CSV `"A,B"`. -/
theorem header_only_csv_summary_witness :
    siteAgg (fun _ => none) (rolesOf (parseCSV "A,B".data).fields)
        (filteredRows (rolesOf (parseCSV "A,B".data).fields)
          ⟨"All".data, "All".data, "All".data⟩ (parseCSV "A,B".data).data) = [] ∧
    (summaryOf (siteAgg (fun _ => none) (rolesOf (parseCSV "A,B".data).fields)
        (filteredRows (rolesOf (parseCSV "A,B".data).fields)
          ⟨"All".data, "All".data, "All".data⟩
          (parseCSV "A,B".data).data))).totalSites = 0 ∧
    (summaryOf (siteAgg (fun _ => none) (rolesOf (parseCSV "A,B".data).fields)
        (filteredRows (rolesOf (parseCSV "A,B".data).fields)
          ⟨"All".data, "All".data, "All".data⟩
          (parseCSV "A,B".data).data))).publicPct = 0 ∧
    (summaryOf (siteAgg (fun _ => none) (rolesOf (parseCSV "A,B".data).fields)
        (filteredRows (rolesOf (parseCSV "A,B".data).fields)
          ⟨"All".data, "All".data, "All".data⟩
          (parseCSV "A,B".data).data))).everyonePct = 0 :=
  header_only_csv_summary "A,B".data ⟨"All".data, "All".data, "All".data⟩
    (fun _ => none) (by decide)

/-! ## C7: missing last-modified dates in the table sort -/

/-- Default used only to state positional properties via `List.getD`. -/
def defaultSite : Site :=
  ⟨[], [], 0, 0, 0, 0, none, [], 0, false, false, []⟩

theorem siteCmp_last_eq (dir : Str) (a b : Site) :
    siteCmp "last".data dir a b =
      (if dir == "asc".data then (1 : ℚ) else -1) *
        (((a.lastModified.getD 0 : ℤ) : ℚ) - ((b.lastModified.getD 0 : ℤ) : ℚ)) := rfl

theorem filteredSites_last_sorted (sites : List Site) (search sharing dir : Str) :
    List.Sorted (fun a b : Site => siteCmp "last".data dir a b ≤ 0)
      (filteredSites sites search sharing "last".data dir) := by
  haveI ht : IsTotal Site (fun a b => siteCmp "last".data dir a b ≤ 0) := by
    constructor
    intro a b
    rw [siteCmp_last_eq, siteCmp_last_eq]
    generalize (if dir == "asc".data then (1 : ℚ) else -1) = d
    generalize ((a.lastModified.getD 0 : ℤ) : ℚ) = x
    generalize ((b.lastModified.getD 0 : ℤ) : ℚ) = y
    have e : d * (y - x) = -(d * (x - y)) := by ring
    rcases le_or_lt (d * (x - y)) 0 with h | h
    · exact Or.inl h
    · refine Or.inr ?_
      rw [e]
      linarith
  haveI htr : IsTrans Site (fun a b => siteCmp "last".data dir a b ≤ 0) := by
    constructor
    intro a b c hab hbc
    rw [siteCmp_last_eq] at hab hbc ⊢
    generalize hgd : (if dir == "asc".data then (1 : ℚ) else -1) = d at hab hbc ⊢
    generalize ((a.lastModified.getD 0 : ℤ) : ℚ) = x at hab ⊢
    generalize ((b.lastModified.getD 0 : ℤ) : ℚ) = y at hab hbc
    generalize ((c.lastModified.getD 0 : ℤ) : ℚ) = z at hbc ⊢
    have e : d * (x - z) = d * (x - y) + d * (y - z) := by ring
    rw [e]
    linarith
  exact List.sorted_insertionSort _ _

/-- C7 (corrected): in the site table sorted by last-modified, a missing
`lastModified` is ordered as if its date were the Unix epoch (time 0), not
the earliest possible value: the sort key of every site is
`lastModified.getD 0`, in ascending key order for `dir = "asc"` and
descending otherwise.  (So a missing site sorts *after* a site with a
pre-1970 date in ascending order.) -/
theorem filteredSites_missing_last_epoch (sites : List Site) (search sharing dir : Str)
    (i j : ℕ) (hi : i < (filteredSites sites search sharing "last".data dir).length)
    (hj : j < (filteredSites sites search sharing "last".data dir).length)
    (hij : i < j) :
    (dir = "asc".data →
      ((filteredSites sites search sharing "last".data dir).getD i
          defaultSite).lastModified.getD 0 ≤
      ((filteredSites sites search sharing "last".data dir).getD j
          defaultSite).lastModified.getD 0) ∧
    (dir ≠ "asc".data →
      ((filteredSites sites search sharing "last".data dir).getD j
          defaultSite).lastModified.getD 0 ≤
      ((filteredSites sites search sharing "last".data dir).getD i
          defaultSite).lastModified.getD 0) := by
  have hs := filteredSites_last_sorted sites search sharing dir
  have hrel := List.pairwise_iff_get.mp hs ⟨i, hi⟩ ⟨j, hj⟩ (Fin.mk_lt_mk.mpr hij)
  rw [siteCmp_last_eq, List.get_eq_getElem, List.get_eq_getElem] at hrel
  rw [List.getD_eq_getElem _ _ hi, List.getD_eq_getElem _ _ hj]
  constructor
  · intro hd
    have hb : (dir == "asc".data) = true := by simp [hd]
    rw [hb, if_pos rfl, one_mul, sub_nonpos] at hrel
    exact_mod_cast hrel
  · intro hd
    have hb : (dir == "asc".data) = false := by simp [hd]
    rw [hb] at hrel
    simp only [Bool.false_eq_true, if_false, neg_one_mul, neg_sub, sub_nonpos] at hrel
    exact_mod_cast hrel

def siteMissing : Site :=
  ⟨"m".data, "m".data, 0, 0, 0, 0, none, "Only Org".data, 1, false, false, []⟩

def siteNeg : Site :=
  ⟨"n".data, "n".data, 0, 0, 0, 0, some (-1000), "Only Org".data, 1, false, false, []⟩

/-- Counterexample to C7 as stated: ascending by last-modified, the site
with a valid pre-1970 date (`getTime = -1000`) sorts *before* the site with
a missing date, so a missing date does not sort as the earliest possible
value. -/
theorem filteredSites_missing_last_cex :
    ((filteredSites [siteMissing, siteNeg] [] "all".data "last".data "asc".data).map
        (·.siteName) = ["n".data, "m".data]) ∧
    ((filteredSites [siteMissing, siteNeg] [] "all".data "last".data "asc".data).map
        (·.lastModified) = [some (-1000), none]) := by
  have hcmp : ¬ (siteCmp "last".data "asc".data siteMissing siteNeg ≤ 0) := by
    have e : siteCmp "last".data "asc".data siteMissing siteNeg =
        (1 : ℚ) * ((((0 : ℤ) : ℚ)) - (((-1000 : ℤ) : ℚ))) := rfl
    rw [e]
    push_cast
    norm_num
  have e0 : filteredSites [siteMissing, siteNeg] [] "all".data "last".data "asc".data =
      List.orderedInsert (fun a b => siteCmp "last".data "asc".data a b ≤ 0)
        siteMissing [siteNeg] := rfl
  have e2 : List.orderedInsert (fun a b => siteCmp "last".data "asc".data a b ≤ 0)
      siteMissing [siteNeg] = [siteNeg, siteMissing] := by
    rw [List.orderedInsert, if_neg hcmp]
    rfl
  rw [e0, e2]
  exact ⟨rfl, rfl⟩

/-- Witness for `filteredSites_missing_last_epoch` on a concrete list. -/
theorem filteredSites_missing_last_epoch_witness :
    (("asc".data : Str) = "asc".data →
      ((filteredSites [siteMissing, siteNeg] [] "all".data "last".data "asc".data).getD 0
          defaultSite).lastModified.getD 0 ≤
      ((filteredSites [siteMissing, siteNeg] [] "all".data "last".data "asc".data).getD 1
          defaultSite).lastModified.getD 0) ∧
    (("asc".data : Str) ≠ "asc".data →
      ((filteredSites [siteMissing, siteNeg] [] "all".data "last".data "asc".data).getD 1
          defaultSite).lastModified.getD 0 ≤
      ((filteredSites [siteMissing, siteNeg] [] "all".data "last".data "asc".data).getD 0
          defaultSite).lastModified.getD 0) :=
  filteredSites_missing_last_epoch [siteMissing, siteNeg] [] "all".data "asc".data 0 1
    (by
      have e : (filteredSites [siteMissing, siteNeg] [] "all".data "last".data
          "asc".data).length = 2 := by
        show (List.insertionSort (fun a b => siteCmp "last".data "asc".data a b ≤ 0)
          [siteMissing, siteNeg]).length = 2
        rw [List.length_insertionSort]
        rfl
      rw [e]
      decide)
    (by
      have e : (filteredSites [siteMissing, siteNeg] [] "all".data "last".data
          "asc".data).length = 2 := by
        show (List.insertionSort (fun a b => siteCmp "last".data "asc".data a b ≤ 0)
          [siteMissing, siteNeg]).length = 2
        rw [List.length_insertionSort]
        rfl
      rw [e]
      decide)
    (by decide)

/-! ## C5/C6: quoted-field round trip through `splitLine` and the exporter -/

/-- A well-behaved field for the quoted round trip: already trimmed and not
starting or ending with a double quote. -/
def okFieldB (f : Str) : Bool :=
  (trimL f == f) && (f.head? != some '"') && (f.getLast? != some '"')

/-- What `splitLine`'s character loop accumulates for a quoted rendering of
`f` before quote-stripping: the escaped empty field leaves a lone quote. -/
def fieldRaw (f : Str) : Str := if f = [] then ['"'] else f

theorem escQuotes_cons_quote (r : Str) :
    escQuotes ('"' :: r) = '"' :: '"' :: escQuotes r := rfl

theorem escQuotes_cons_ne (c : Char) (r : Str) (h : c ≠ '"') :
    escQuotes (c :: r) = c :: escQuotes r := by
  simp [escQuotes, h]

theorem splitRec_escaped (f : Str) : ∀ (cur rest : Str), rest.head? ≠ some '"' →
    splitLineRec (escQuotes f ++ ('"' :: rest)) cur true =
      splitLineRec rest (cur ++ f) false := by
  induction f with
  | nil =>
    intro cur rest h
    cases rest with
    | nil => simp [escQuotes, splitLineRec]
    | cons d r2 =>
      have hd : d ≠ '"' := by
        intro e
        exact h (by rw [e]; rfl)
      simp [escQuotes, splitLineRec, hd]
  | cons c f ih =>
    intro cur rest h
    by_cases hc : c = '"'
    · subst hc
      have e0 : escQuotes ('"' :: f) ++ ('"' :: rest) =
          '"' :: '"' :: (escQuotes f ++ ('"' :: rest)) := by
        rw [escQuotes_cons_quote]
        rfl
      rw [e0]
      have e1 : splitLineRec ('"' :: '"' :: (escQuotes f ++ ('"' :: rest))) cur true =
          splitLineRec (escQuotes f ++ ('"' :: rest)) (cur ++ ['"']) true := rfl
      rw [e1, ih (cur ++ ['"']) rest h, List.append_assoc]
      rfl
    · have e0 : escQuotes (c :: f) ++ ('"' :: rest) =
          c :: (escQuotes f ++ ('"' :: rest)) := by
        rw [escQuotes_cons_ne c f hc]
        rfl
      rw [e0]
      by_cases hcc : c = ','
      · subst hcc
        have e1 : splitLineRec (',' :: (escQuotes f ++ ('"' :: rest))) cur true =
            splitLineRec (escQuotes f ++ ('"' :: rest)) (cur ++ [',']) true := by
          simp [splitLineRec]
        rw [e1, ih (cur ++ [',']) rest h, List.append_assoc]
        rfl
      · have e1 : splitLineRec (c :: (escQuotes f ++ ('"' :: rest))) cur true =
            splitLineRec (escQuotes f ++ ('"' :: rest)) (cur ++ [c]) true := by
          simp [splitLineRec, hc, hcc]
        rw [e1, ih (cur ++ [c]) rest h, List.append_assoc]
        rfl

theorem splitRec_field_last (f : Str) (hf : f.head? ≠ some '"') :
    splitLineRec (csvField f) [] false = [trimL (fieldRaw f)] := by
  cases f with
  | nil => simp [csvField, escQuotes, splitLineRec, fieldRaw]
  | cons c f0 =>
    have hc : c ≠ '"' := by
      intro e
      exact hf (by rw [e]; rfl)
    have e0 : csvField (c :: f0) = '"' :: (escQuotes (c :: f0) ++ ('"' :: [])) := by
      simp [csvField]
    rw [e0]
    have e1 : splitLineRec ('"' :: (escQuotes (c :: f0) ++ ('"' :: [])))  [] false =
        splitLineRec (escQuotes (c :: f0) ++ ('"' :: [])) [] true := by
      rw [escQuotes_cons_ne c f0 hc]
      simp [splitLineRec, hc]
    rw [e1, splitRec_escaped (c :: f0) [] [] (by simp)]
    have : fieldRaw (c :: f0) = c :: f0 := by simp [fieldRaw]
    rw [this]
    rfl

theorem splitRec_field_cons (f more : Str) (hf : f.head? ≠ some '"') :
    splitLineRec (csvField f ++ (',' :: more)) [] false =
      trimL (fieldRaw f) :: splitLineRec more [] false := by
  cases f with
  | nil => simp [csvField, escQuotes, splitLineRec, fieldRaw]
  | cons c f0 =>
    have hc : c ≠ '"' := by
      intro e
      exact hf (by rw [e]; rfl)
    have e0 : csvField (c :: f0) ++ (',' :: more) =
        '"' :: (escQuotes (c :: f0) ++ ('"' :: (',' :: more))) := by
      simp [csvField]
    rw [e0]
    have e1 : splitLineRec ('"' :: (escQuotes (c :: f0) ++ ('"' :: (',' :: more)))) [] false =
        splitLineRec (escQuotes (c :: f0) ++ ('"' :: (',' :: more))) [] true := by
      rw [escQuotes_cons_ne c f0 hc]
      simp [splitLineRec, hc]
    rw [e1, splitRec_escaped (c :: f0) [] (',' :: more) (by simp)]
    have e2 : fieldRaw (c :: f0) = c :: f0 := by simp [fieldRaw]
    rw [e2]
    simp [splitLineRec]

theorem splitRec_line (fs : List Str) (hne : fs ≠ [])
    (h : ∀ f ∈ fs, f.head? ≠ some '"') :
    splitLineRec (joinSep ",".data (fs.map csvField)) [] false =
      fs.map (fun f => trimL (fieldRaw f)) := by
  induction fs with
  | nil => exact absurd rfl hne
  | cons f fs ih =>
    cases fs with
    | nil =>
      have e : joinSep ",".data ([f].map csvField) = csvField f := rfl
      rw [e, splitRec_field_last f (h f (List.mem_cons_self f []))]
      rfl
    | cons f2 fs2 =>
      have e : joinSep ",".data ((f :: f2 :: fs2).map csvField) =
          csvField f ++ (',' :: joinSep ",".data ((f2 :: fs2).map csvField)) := by
        simp [joinSep, List.map_cons]
      rw [e, splitRec_field_cons f _ (h f (List.mem_cons_self f _))]
      rw [ih (by simp) (fun g hg => h g (List.mem_cons_of_mem f hg))]
      rfl

theorem okFieldB_parts (f : Str) (h : okFieldB f = true) :
    trimL f = f ∧ f.head? ≠ some '"' ∧ f.getLast? ≠ some '"' := by
  have h1 := h
  unfold okFieldB at h1
  rw [Bool.and_eq_true, Bool.and_eq_true] at h1
  refine ⟨?_, ?_, ?_⟩
  · have := h1.1.1
    simpa using this
  · have := h1.1.2
    simpa using this
  · have := h1.2
    simpa using this

theorem stripWrap_fieldRaw (f : Str) (h : okFieldB f = true) :
    stripWrap (trimL (fieldRaw f)) = f := by
  obtain ⟨ht, hh, hl⟩ := okFieldB_parts f h
  cases f with
  | nil => rfl
  | cons c f0 =>
    have e0 : fieldRaw (c :: f0) = c :: f0 := by simp [fieldRaw]
    rw [e0, ht]
    have hc : c ≠ '"' := by
      intro e
      exact hh (by rw [e]; rfl)
    cases hgl : (c :: f0 : Str).getLast? with
    | none => simp [stripWrap, hc, hgl]
    | some d =>
      have hd : d ≠ '"' := by
        intro e
        exact hl (by rw [hgl, e])
      simp [stripWrap, hc, hgl, hd]

/-- The quoted-field round trip through the splitter, shared by the C5 and
C6 theorems. -/
theorem splitLine_render (fs : List Str) (hne : fs ≠ [])
    (hok : ∀ f ∈ fs, okFieldB f = true) :
    splitLine (joinSep ",".data (fs.map csvField)) = fs := by
  unfold splitLine
  rw [splitRec_line fs hne (fun f hf => (okFieldB_parts f (hok f hf)).2.1)]
  rw [List.map_map]
  have e : fs.map (stripWrap ∘ fun f => trimL (fieldRaw f)) = fs.map (fun f => f) :=
    List.map_congr_left (fun f hf => stripWrap_fieldRaw f (hok f hf))
  rw [e]
  simp

/-- C5 (corrected): `splitLine` on a line of double-quoted fields (with
embedded quotes escaped by doubling) recovers exactly the original fields —
commas inside quotes do not split, `""` becomes one literal quote and the
delimiting quotes are dropped — provided each field is already trimmed and
does not begin or end with a double-quote character. -/
theorem splitLine_quoted_fields (fs : List Str) (hne : fs ≠ [])
    (hok : ∀ f ∈ fs, okFieldB f = true) :
    splitLine (joinSep ",".data (fs.map csvField)) = fs :=
  splitLine_render fs hne hok

/-- Counterexample to C5 as stated: the loop trims every field, so the
inner text of the quoted field `" x"` is *not* left unchanged — the leading
space is lost. -/
theorem splitLine_trims_inner_cex :
    splitLine (joinSep ",".data ([" x".data].map csvField)) = ["x".data] ∧
      ["x".data] ≠ [" x".data] := by
  exact ⟨by decide, by decide⟩

/-- Witness for `splitLine_quoted_fields`: a field with an embedded comma
and a field with an embedded quote round-trip. -/
theorem splitLine_quoted_fields_witness :
    splitLine (joinSep ",".data (["a,b".data, "c\"d".data].map csvField)) =
      ["a,b".data, "c\"d".data] :=
  splitLine_quoted_fields ["a,b".data, "c\"d".data] (by decide) (by decide)

/-! ### Splitting the exported text back into lines -/

theorem splitLines_noNL (l : Str) : ∀ cur : Str, '\n' ∉ l →
    splitLinesRec l cur = [cur ++ l] := by
  induction l with
  | nil => intro cur h; simp [splitLinesRec]
  | cons c l0 ih =>
    intro cur h
    have hc : c ≠ '\n' := fun e => h (by rw [e]; exact List.mem_cons_self _ _)
    have hl0 : '\n' ∉ l0 := fun hm => h (List.mem_cons_of_mem c hm)
    by_cases hr : c = '\r'
    · subst hr
      cases l0 with
      | nil => simp [splitLinesRec]
      | cons d l1 =>
        have hd : d ≠ '\n' := fun e => hl0 (by rw [e]; exact List.mem_cons_self _ _)
        have e1 : splitLinesRec ('\r' :: d :: l1) cur =
            splitLinesRec (d :: l1) (cur ++ ['\r']) := by
          simp [splitLinesRec, hd]
        rw [e1, ih (cur ++ ['\r']) hl0]
        simp
    · have e1 : splitLinesRec (c :: l0) cur = splitLinesRec l0 (cur ++ [c]) := by
        simp [splitLinesRec, hc, hr]
      rw [e1, ih (cur ++ [c]) hl0]
      simp

theorem splitLines_cut (l : Str) : ∀ (cur rest : Str), '\n' ∉ l →
    l.getLast? ≠ some '\r' →
    splitLinesRec (l ++ '\n' :: rest) cur = (cur ++ l) :: splitLinesRec rest [] := by
  induction l with
  | nil =>
    intro cur rest h hl
    simp [splitLinesRec]
  | cons c l0 ih =>
    intro cur rest h hl
    have hc : c ≠ '\n' := fun e => h (by rw [e]; exact List.mem_cons_self _ _)
    have hl0 : '\n' ∉ l0 := fun hm => h (List.mem_cons_of_mem c hm)
    by_cases hr : c = '\r'
    · subst hr
      cases l0 with
      | nil => exact absurd (by simp) hl
      | cons d l1 =>
        have hd : d ≠ '\n' := fun e => hl0 (by rw [e]; exact List.mem_cons_self _ _)
        have hl1 : (d :: l1 : Str).getLast? ≠ some '\r' := by
          intro e
          exact hl (by rw [← e]; simp [List.getLast?_cons_cons])
        have e1 : splitLinesRec (('\r' :: d :: l1) ++ '\n' :: rest) cur =
            splitLinesRec ((d :: l1) ++ '\n' :: rest) (cur ++ ['\r']) := by
          simp [splitLinesRec, hd]
        rw [e1, ih (cur ++ ['\r']) rest hl0 hl1]
        simp
    · cases l0 with
      | nil =>
        have e1 : splitLinesRec (([c] : Str) ++ '\n' :: rest) cur =
            splitLinesRec ('\n' :: rest) (cur ++ [c]) := by
          simp [splitLinesRec, hc, hr]
        rw [e1]
        simp [splitLinesRec]
      | cons d l1 =>
        have hl1 : (d :: l1 : Str).getLast? ≠ some '\r' := by
          intro e
          exact hl (by rw [← e]; simp [List.getLast?_cons_cons])
        have e1 : splitLinesRec ((c :: d :: l1) ++ '\n' :: rest) cur =
            splitLinesRec ((d :: l1) ++ '\n' :: rest) (cur ++ [c]) := by
          simp [splitLinesRec, hc, hr]
        rw [e1, ih (cur ++ [c]) rest hl0 hl1]
        simp

theorem splitLines_join (ls : List Str) (hne : ls ≠ [])
    (h : ∀ l ∈ ls, '\n' ∉ l ∧ l.getLast? ≠ some '\r') :
    splitLinesRec (joinSep ['\n'] ls) [] = ls := by
  induction ls with
  | nil => exact absurd rfl hne
  | cons l ls ih =>
    cases ls with
    | nil =>
      have e : joinSep ['\n'] [l] = l := rfl
      rw [e, splitLines_noNL l [] (h l (List.mem_cons_self l [])).1]
      rfl
    | cons l2 ls2 =>
      have e : joinSep ['\n'] (l :: l2 :: ls2) =
          l ++ '\n' :: joinSep ['\n'] (l2 :: ls2) := by
        simp [joinSep]
      obtain ⟨h1, h2⟩ := h l (List.mem_cons_self l _)
      rw [e, splitLines_cut l [] (joinSep ['\n'] (l2 :: ls2)) h1 h2]
      rw [ih (by simp) (fun g hg => h g (List.mem_cons_of_mem l hg))]
      rfl

/-! ### The export surface and its parse round trip (C6) -/

/-- An exported Site Aggregate record, with the four compared columns
already in their string form (`String(r[k])` in the source). -/
structure ExportRec where
  siteName : Str
  files : Str
  totalKB : Str
  sharingLevel : Str
deriving DecidableEq

/-- The object handed to `downloadCSV` for one site (the fixed export
column set of the claim). -/
def exportRow (e : ExportRec) : Row :=
  [("SiteName".data, e.siteName), ("Files".data, e.files),
   ("TotalKB".data, e.totalKB), ("SharingLevel".data, e.sharingLevel)]

def exportTuple (e : ExportRec) : Str × Str × Str × Str :=
  (e.siteName, e.files, e.totalKB, e.sharingLevel)

def fieldsOf (e : ExportRec) : List Str :=
  [e.siteName, e.files, e.totalKB, e.sharingLevel]

/-- The (site, files, totalKB, sharingLevel) tuples read back, as strings,
from a parse result. -/
def parsedTuples (p : ParseResult) : List (Str × Str × Str × Str) :=
  p.data.map (fun r =>
    ((objGet r "SiteName".data).getD [], (objGet r "Files".data).getD [],
     (objGet r "TotalKB".data).getD [], (objGet r "SharingLevel".data).getD []))

/-- Fields that survive the exporter/parser round trip: trimmed, no
boundary quote, and no newline. -/
def okExportB (e : ExportRec) : Bool :=
  (okFieldB e.siteName && !(e.siteName.contains '\n')) &&
  (okFieldB e.files && !(e.files.contains '\n')) &&
  (okFieldB e.totalKB && !(e.totalKB.contains '\n')) &&
  (okFieldB e.sharingLevel && !(e.sharingLevel.contains '\n'))

theorem downloadCSVText_export (e0 : ExportRec) (rest : List ExportRec) :
    downloadCSVText ((e0 :: rest).map exportRow) =
      joinSep "\n".data ("SiteName,Files,TotalKB,SharingLevel".data ::
        (e0 :: rest).map (fun e => joinSep ",".data ((fieldsOf e).map csvField))) := by
  unfold downloadCSVText
  simp only [List.map_cons, List.map_map]
  rfl

theorem mem_escQuotes (c : Char) (f : Str) (h : c ∈ escQuotes f) : c ∈ f ∨ c = '"' := by
  induction f with
  | nil => cases h
  | cons a f0 ih =>
    by_cases ha : a = '"'
    · subst ha
      rw [escQuotes_cons_quote] at h
      rcases List.mem_cons.mp h with h1 | h1
      · exact Or.inr h1
      · rcases List.mem_cons.mp h1 with h2 | h2
        · exact Or.inr h2
        · rcases ih h2 with h3 | h3
          · exact Or.inl (List.mem_cons_of_mem _ h3)
          · exact Or.inr h3
    · rw [escQuotes_cons_ne a f0 ha] at h
      rcases List.mem_cons.mp h with h1 | h1
      · exact Or.inl (by rw [h1]; exact List.mem_cons_self _ _)
      · rcases ih h1 with h3 | h3
        · exact Or.inl (List.mem_cons_of_mem _ h3)
        · exact Or.inr h3

theorem noNL_csvField (f : Str) (h : ('\n' : Char) ∉ f) : ('\n' : Char) ∉ csvField f := by
  intro hm
  unfold csvField at hm
  rcases List.mem_cons.mp hm with h1 | h1
  · cases h1
  · rcases List.mem_append.mp h1 with h2 | h2
    · rcases mem_escQuotes _ _ h2 with h3 | h3
      · exact h h3
      · cases h3
    · rcases List.mem_cons.mp h2 with h3 | h3
      · cases h3
      · cases h3

theorem noNL_render (fs : List Str) (h : ∀ f ∈ fs, ('\n' : Char) ∉ f) :
    ('\n' : Char) ∉ joinSep ",".data (fs.map csvField) := by
  induction fs with
  | nil => simp [joinSep]
  | cons f fs ih =>
    cases fs with
    | nil =>
      have e : joinSep ",".data ([f].map csvField) = csvField f := rfl
      rw [e]
      exact noNL_csvField f (h f (List.mem_cons_self f []))
    | cons f2 fs2 =>
      have e : joinSep ",".data ((f :: f2 :: fs2).map csvField) =
          csvField f ++ (',' :: joinSep ",".data ((f2 :: fs2).map csvField)) := by
        simp [joinSep, List.map_cons]
      rw [e]
      intro hm
      rcases List.mem_append.mp hm with h1 | h1
      · exact noNL_csvField f (h f (List.mem_cons_self f _)) h1
      · rcases List.mem_cons.mp h1 with h2 | h2
        · cases h2
        · exact ih (fun g hg => h g (List.mem_cons_of_mem f hg)) h2

theorem getLast?_render (fs : List Str) (hne : fs ≠ []) :
    (joinSep ",".data (fs.map csvField)).getLast? = some '"' := by
  induction fs with
  | nil => exact absurd rfl hne
  | cons f fs ih =>
    cases fs with
    | nil =>
      have e : joinSep ",".data ([f].map csvField) =
          ('"' :: escQuotes f) ++ ['"'] := by
        simp [joinSep, csvField]
      rw [e, List.getLast?_concat]
    | cons f2 fs2 =>
      have e : joinSep ",".data ((f :: f2 :: fs2).map csvField) =
          csvField f ++ (',' :: joinSep ",".data ((f2 :: fs2).map csvField)) := by
        simp [joinSep, List.map_cons]
      rw [e, List.getLast?_append]
      have e2 : ((',' : Char) :: joinSep ",".data ((f2 :: fs2).map csvField)).getLast? =
          some '"' := by
        have e3 : ((',' : Char) :: joinSep ",".data ((f2 :: fs2).map csvField)) =
            [','] ++ joinSep ",".data ((f2 :: fs2).map csvField) := rfl
        rw [e3, List.getLast?_append, ih (by simp)]
        rfl
      rw [e2]
      rfl

theorem trimL_eq_self (s : Str) (h1 : ∀ c, s.head? = some c → jsWs c = false)
    (h2 : ∀ c, s.getLast? = some c → jsWs c = false) : trimL s = s := by
  unfold trimL
  have e1 : s.dropWhile jsWs = s := by
    cases s with
    | nil => rfl
    | cons a l =>
      rw [List.dropWhile_cons]
      rw [h1 a rfl]
      simp
  rw [e1]
  have e2 : s.reverse.dropWhile jsWs = s.reverse := by
    cases hs : s.reverse with
    | nil => rfl
    | cons a l =>
      rw [List.dropWhile_cons]
      have : s.getLast? = some a := by
        rw [← List.head?_reverse, hs]
        rfl
      rw [h2 a this]
      simp
  rw [e2, List.reverse_reverse]

theorem parseRows_cons (hs : List Str) (line : Str) (rest : List Str) :
    parseRows hs (line :: rest) =
      if trimL line = [] then parseRows hs rest
      else buildRow hs (splitLine (trimL line)) :: parseRows hs rest := rfl

theorem parseRows_export (es : List ExportRec) (hok : ∀ e ∈ es, okExportB e = true) :
    parseRows ["SiteName".data, "Files".data, "TotalKB".data, "SharingLevel".data]
        (es.map (fun e => joinSep ",".data ((fieldsOf e).map csvField))) =
      es.map exportRow := by
  induction es with
  | nil => rfl
  | cons e es ih =>
    have hoke := hok e (List.mem_cons_self e _)
    have hfields : ∀ f ∈ fieldsOf e, okFieldB f = true := by
      have hx := hoke
      simp only [okExportB, Bool.and_eq_true] at hx
      obtain ⟨⟨⟨⟨hs1, _⟩, ⟨hs2, _⟩⟩, ⟨hs3, _⟩⟩, ⟨hs4, _⟩⟩ := hx
      intro f hf
      rcases List.mem_cons.mp hf with h | h
      · rw [h]; exact hs1
      rcases List.mem_cons.mp h with h | h
      · rw [h]; exact hs2
      rcases List.mem_cons.mp h with h | h
      · rw [h]; exact hs3
      rcases List.mem_cons.mp h with h | h
      · rw [h]; exact hs4
      · cases h
    have hhead : (joinSep ",".data ((fieldsOf e).map csvField)).head? = some '"' := rfl
    have htrim : trimL (joinSep ",".data ((fieldsOf e).map csvField)) =
        joinSep ",".data ((fieldsOf e).map csvField) := by
      apply trimL_eq_self
      · intro c hc
        rw [hhead] at hc
        cases hc
        decide
      · intro c hc
        rw [getLast?_render (fieldsOf e) (by simp [fieldsOf])] at hc
        cases hc
        decide
    rw [List.map_cons, parseRows_cons, htrim]
    have hrne : joinSep ",".data ((fieldsOf e).map csvField) ≠ [] := by
      intro h0
      have := congrArg List.head? h0
      rw [hhead] at this
      cases this
    rw [if_neg hrne]
    rw [splitLine_render (fieldsOf e) (by simp [fieldsOf]) hfields]
    rw [ih (fun g hg => hok g (List.mem_cons_of_mem e hg))]
    rfl

theorem not_mem_of_contains_eq_false {c : Char} {f : Str}
    (h : f.contains c = false) : c ∉ f := by
  intro hm
  have h2 : f.contains c = true := by
    unfold List.contains
    exact List.elem_eq_true_of_mem hm
  rw [h2] at h
  cases h

theorem okExportB_noNL (e : ExportRec) (h : okExportB e = true) :
    ∀ f ∈ fieldsOf e, ('\n' : Char) ∉ f := by
  have hx := h
  simp only [okExportB, Bool.and_eq_true, Bool.not_eq_true'] at hx
  obtain ⟨⟨⟨⟨_, hn1⟩, ⟨_, hn2⟩⟩, ⟨_, hn3⟩⟩, ⟨_, hn4⟩⟩ := hx
  intro f hf
  rcases List.mem_cons.mp hf with hh | hh
  · rw [hh]; exact not_mem_of_contains_eq_false hn1
  rcases List.mem_cons.mp hh with hh | hh
  · rw [hh]; exact not_mem_of_contains_eq_false hn2
  rcases List.mem_cons.mp hh with hh | hh
  · rw [hh]; exact not_mem_of_contains_eq_false hn3
  rcases List.mem_cons.mp hh with hh | hh
  · rw [hh]; exact not_mem_of_contains_eq_false hn4
  · cases hh

theorem parseLines_cons (line : Str) (rest : List Str) :
    parseLines (line :: rest) =
      if trimL line = [] then parseLines rest
      else ⟨parseRows (splitLine (trimL line)) rest, splitLine (trimL line)⟩ := rfl

/-- C6 (corrected): exporting Site Aggregate records with `downloadCSV`
(double-quote every field, double embedded quotes) and re-parsing with
`parseCSV` reproduces exactly the original (site, files, totalKB,
sharingLevel) string tuples, provided no exported field value begins or
ends with a double quote, needs trimming, or contains a newline. -/
theorem export_parse_roundtrip (recs : List ExportRec) (hne : recs ≠ [])
    (hok : ∀ e ∈ recs, okExportB e = true) :
    parsedTuples (parseCSV (downloadCSVText (recs.map exportRow))) =
      recs.map exportTuple := by
  cases recs with
  | nil => exact absurd rfl hne
  | cons e0 rest =>
    rw [downloadCSVText_export e0 rest]
    unfold parseCSV
    have hconds : ∀ l ∈ ("SiteName,Files,TotalKB,SharingLevel".data ::
        (e0 :: rest).map (fun e => joinSep ",".data ((fieldsOf e).map csvField))),
        ('\n' : Char) ∉ l ∧ l.getLast? ≠ some '\r' := by
      intro l hl
      rcases List.mem_cons.mp hl with h | h
      · rw [h]
        exact ⟨by decide, by decide⟩
      · obtain ⟨e, he, hren⟩ := List.mem_map.mp h
        rw [← hren]
        constructor
        · exact noNL_render (fieldsOf e) (okExportB_noNL e (hok e he))
        · rw [getLast?_render (fieldsOf e) (by simp [fieldsOf])]
          decide
    rw [splitLines_join _ (by simp) hconds]
    rw [parseLines_cons]
    have ht : trimL "SiteName,Files,TotalKB,SharingLevel".data =
        "SiteName,Files,TotalKB,SharingLevel".data := by decide
    rw [ht]
    rw [if_neg (by decide)]
    have hsl : splitLine "SiteName,Files,TotalKB,SharingLevel".data =
        ["SiteName".data, "Files".data, "TotalKB".data, "SharingLevel".data] := by decide
    rw [hsl]
    rw [parseRows_export (e0 :: rest) hok]
    unfold parsedTuples
    simp only [List.map_map]
    rfl

/-- Counterexample to C6 as stated: a site name that *is* a double quote
comes back as the empty string — the unconditional round trip fails. -/
theorem export_parse_roundtrip_cex :
    parsedTuples (parseCSV (downloadCSVText
        ([(⟨"\"".data, "1".data, "2".data, "Only Org".data⟩ : ExportRec)].map exportRow))) =
      [(([] : Str), "1".data, "2".data, "Only Org".data)] ∧
    [(⟨"\"".data, "1".data, "2".data, "Only Org".data⟩ : ExportRec)].map exportTuple =
      [("\"".data, "1".data, "2".data, "Only Org".data)] ∧
    (([] : Str), "1".data, "2".data, "Only Org".data) ≠
      ("\"".data, "1".data, "2".data, "Only Org".data) := by
  refine ⟨by decide, by decide, by decide⟩

/-- Witness for `export_parse_roundtrip`: a site name with an embedded
quote and comma survives the round trip. -/
theorem export_parse_roundtrip_witness :
    parsedTuples (parseCSV (downloadCSVText
        ([(⟨"Site \"A\", HQ".data, "2".data, "150".data, "Only Org".data⟩ : ExportRec)].map
          exportRow))) =
      [(⟨"Site \"A\", HQ".data, "2".data, "150".data, "Only Org".data⟩ : ExportRec)].map
        exportTuple :=
  export_parse_roundtrip
    [(⟨"Site \"A\", HQ".data, "2".data, "150".data, "Only Org".data⟩ : ExportRec)]
    (by decide) (by decide)

end AIDash
